import Mathlib

/-!
# Verification of the tlytics buffering-and-flush pipeline

Shallow embedding of the tlytics event-ingestion core: the `Event` value
type, the `DB` durable store (`InsertEvents`, `GetEvents`), the `Logger`
ingestion buffer with its flush scheduler (`Emit`, `flush`, `Flush`,
`Stop`, the periodic tick of `flushWorker`), the client-side mirror
(`Client`), and the HTTP boundary validation of `Server.handleEvents`.

Concurrency is embedded sequentially: every mutex-protected critical
section of the Go code is one atomic step here, and the background flush
worker's two wakeup causes (ticker fire, stop signal) are explicit
transitions.  Machine `int`s are `Int`; `time.Time` is a `Nat` tick count
whose zero value is `0` (Go's `IsZero`).
-/

namespace Tlytics

/-- The `Data` field of an event (`map[string]interface{}` in Go),
abstracted to what `encoding/json` sees: either a JSON-serializable
mapping, identified by its canonical serialization string, or a value
(containing a channel, function, ...) that `json.Marshal` rejects with an
error. -/
inductive GoData where
  | json (s : String)
  | unsupported
deriving DecidableEq, Repr

/-- `json.Marshal` on an event's `Data`: succeeds exactly on serializable
values, returning the serialization. -/
def marshalData : GoData → Option String
  | .json s => some s
  | .unsupported => none

/-- `json.Unmarshal` of a stored `data` column back into a `Data` map.
Stored columns only ever come from a successful `marshalData`, so this is
total and inverse to it on the `json` constructor. -/
def unmarshalData (s : String) : GoData := .json s

/-- The `Event` struct: `Key string`, `Timestamp time.Time` (0 = Go's zero
time), `Data map[string]interface{}`. -/
structure Event where
  key : String
  timestamp : Nat
  data : GoData
deriving DecidableEq, Repr

/-- One row of the `tlytics` table: columns `(key, timestamp, data)` with
`data` the serialized JSON text. -/
structure Row where
  key : String
  timestamp : Nat
  data : String
deriving DecidableEq, Repr

/-- The durable store's table contents, in insertion (rowid) order. -/
abbrev DBState := List Row

/-- The serialization an event's data will receive (meaningful only when
`marshalData` succeeds). -/
def serializeOr (d : GoData) : String :=
  match d with
  | .json s => s
  | .unsupported => ""

/-- The row a serializable event becomes inside `InsertEvents`. -/
def rowOf (e : Event) : Row :=
  ⟨e.key, e.timestamp, serializeOr e.data⟩

/-- The loop body of `DB.InsertEvents`: marshal each event's data and
build its row; the first marshal error aborts (the Go code `return err`s
into the deferred `tx.Rollback()`). `none` = some row failed. -/
def rowsOfEvents : List Event → Option (List Row)
  | [] => some []
  | e :: rest =>
    match marshalData e.data with
    | none => none
    | some s =>
      match rowsOfEvents rest with
      | none => none
      | some rs => some (⟨e.key, e.timestamp, s⟩ :: rs)

/-- `DB.InsertEvents`: one all-or-nothing transaction. On any per-row
error the whole transaction is rolled back and the table is unchanged
(second component `false` = error returned); otherwise all rows are
appended and committed (`true`). -/
def insertEvents (db : DBState) (events : List Event) : DBState × Bool :=
  match rowsOfEvents events with
  | none => (db, false)
  | some rs => (db ++ rs, true)

/-- The comparison `ORDER BY timestamp DESC` sorts by. -/
def tsGE (a b : Row) : Prop := b.timestamp ≤ a.timestamp

instance : DecidableRel tsGE := fun a b => Nat.decLe b.timestamp a.timestamp

instance : IsTotal Row tsGE := ⟨fun a b => Nat.le_total b.timestamp a.timestamp⟩

instance : IsTrans Row tsGE := ⟨fun _ _ _ h1 h2 => Nat.le_trans h2 h1⟩

/-- The result order of `SELECT ... ORDER BY timestamp DESC`: timestamp
descending.  SQLite leaves the relative order of timestamp ties
unspecified but constant for a fixed table state and query; it is embedded
here as a stable sort. -/
def sortRows (rows : List Row) : List Row :=
  List.insertionSort tsGE rows

/-- SQLite `LIMIT ? OFFSET ?` with Go `int` parameters: a negative OFFSET
behaves as 0 (`Int.toNat` of a negative is 0), and a negative LIMIT means
no upper bound on the number of rows returned. -/
def sqlPage (limit offset : Int) (rows : List Row) : List Row :=
  let dropped := rows.drop offset.toNat
  if limit < 0 then dropped else dropped.take limit.toNat

/-- Scanning a result row back into an `Event` (`rows.Scan` +
`json.Unmarshal` of the data column). -/
def rowToEvent (r : Row) : Event :=
  ⟨r.key, r.timestamp, unmarshalData r.data⟩

/-- `DB.GetEvents(limit, offset)`: under the store mutex, `totalCount` is
`SELECT COUNT(*)` over the whole table — independent of the page window —
and the page is `ORDER BY timestamp DESC LIMIT ? OFFSET ?`.  Total and
page come from the same table state (the mutex serializes inserts and
reads).  No error path is reachable in the model: stored data columns
always unmarshal. -/
def getEvents (db : DBState) (limit offset : Int) : List Event × Int :=
  (List.map rowToEvent (sqlPage limit offset (sortRows db)), (db.length : Int))

/-- The pair a caller compares for content equality: an event's key and
data, ignoring the timestamp. -/
def content (e : Event) : String × GoData := (e.key, e.data)

/-- Combined state of one server-side `Logger` and its `DB` sink:
`queue` is the in-memory buffer, `db` the durable table, `stopped` is
true once `stopCh` has been closed and the flush worker has exited
(`Stop()` has run). -/
structure Sys where
  queue : List Event
  db : DBState
  stopped : Bool
deriving DecidableEq, Repr

/-- State right after `Init` + `NewLogger`: empty table, empty queue,
worker running. -/
def initSys : Sys := ⟨[], [], false⟩

/-- `Logger.Emit`'s timestamp defaulting: `if e.Timestamp.IsZero() {
e.Timestamp = time.Now() }`. -/
def withNow (now : Nat) (e : Event) : Event :=
  if e.timestamp = 0 then { e with timestamp := now } else e

/-- `Logger.Emit`: default the timestamp, append to the queue under the
mutex, `return nil`.  The second component is the returned `error`,
which is always `none`: `Emit` performs no validation and cannot fail. -/
def emit (s : Sys) (now : Nat) (e : Event) : Sys × Option String :=
  ({ s with queue := s.queue ++ [withNow now e] }, none)

/-- Emit a list of events in order, each with its own `now`. -/
def emitAll (s : Sys) : List (Nat × Event) → Sys
  | [] => s
  | p :: rest => emitAll (emit s p.1 p.2).1 rest

/-- `Logger.flush`: under the mutex, an empty queue returns immediately;
otherwise snapshot the queue, clear it, release the mutex, and hand the
snapshot to `DB.InsertEvents`, swallowing any insert error (the batch is
dropped).  The second component records the batch handed to the sink, if
any (`none` = no sink call was made). -/
def flush (s : Sys) : Sys × Option (List Event) :=
  if s.queue = [] then (s, none)
  else
    ({ s with queue := [], db := (insertEvents s.db s.queue).1 }, some s.queue)

/-- One firing of the `flushWorker` ticker: if the worker has exited
(post-`Stop`), nothing runs; otherwise the worker calls `flush`. -/
def tick (s : Sys) : Sys × Option (List Event) :=
  if s.stopped then (s, none) else flush s

/-- `Logger.Flush`: delegates to `flush` unconditionally — it is not
gated on the scheduler state. -/
def FlushOp (s : Sys) : Sys × Option (List Event) := flush s

/-- `Logger.Stop`: `close(l.stopCh)` then `l.wg.Wait()`.  Closing an
already-closed channel is a Go runtime panic, modelled as `none`.
Otherwise the worker takes the `<-l.stopCh` branch, runs the final
`flush`, returns, and `Stop` unblocks — so the returned state has the
final drain applied and the worker gone. -/
def stop (s : Sys) : Option Sys :=
  if s.stopped then none
  else some (flush { s with stopped := true }).1

/-- Operations a caller can perform against a `Logger` system. -/
inductive Op where
  | emitOp (now : Nat) (e : Event)
  | tickOp
  | flushOp
  | stopOp
deriving DecidableEq, Repr

/-- One operation step; `none` propagates a runtime panic. -/
def step (s : Sys) (op : Op) : Option Sys :=
  match op with
  | .emitOp now e => some (emit s now e).1
  | .tickOp => some (tick s).1
  | .flushOp => some (FlushOp s).1
  | .stopOp => stop s

/-- Run a sequence of operations; a panic aborts the run. -/
def run (s : Sys) : List Op → Option Sys
  | [] => some s
  | op :: rest =>
    match step s op with
    | none => none
    | some s' => run s' rest

/-- Client-side mirror: same queue/stopCh/worker structure as `Logger`,
but the sink is `sendEvents` (an HTTP POST of the JSON-encoded batch);
`sent` records the batches handed to the network sink. -/
structure Client where
  queue : List Event
  sent : List (List Event)
  stopped : Bool
deriving DecidableEq, Repr

/-- `Client.flush`: same snapshot-and-clear as `Logger.flush`, handing
the batch to `sendEvents`; a send error is swallowed (batch dropped), so
the hand-off happens regardless of the network outcome. -/
def clientFlush (c : Client) : Client × Option (List Event) :=
  if c.queue = [] then (c, none)
  else ({ c with queue := [], sent := c.sent ++ [c.queue] }, some c.queue)

/-- A freshly constructed `Client` (`newHTTPClient`): empty queue, no
batches sent, worker running. -/
def initClient : Client := ⟨[], [], false⟩

/-- `Client.Stop`: identical to `Logger.Stop` — double close panics. -/
def clientStop (c : Client) : Option Client :=
  if c.stopped then none
  else some (clientFlush { c with stopped := true }).1

theorem flush_fst_queue (s : Sys) : (flush s).1.queue = [] := by
  unfold flush
  split
  · next h => exact h
  · rfl

theorem flush_fst_stopped (s : Sys) : (flush s).1.stopped = s.stopped := by
  unfold flush
  split <;> rfl

theorem flush_of_queue_nil (s : Sys) (h : s.queue = []) : flush s = (s, none) := by
  unfold flush
  exact if_pos h

theorem clientFlush_fst_stopped (c : Client) : (clientFlush c).1.stopped = c.stopped := by
  unfold clientFlush
  split <;> rfl

theorem withNow_data (now : Nat) (e : Event) : (withNow now e).data = e.data := by
  unfold withNow
  split <;> rfl

theorem content_withNow (now : Nat) (e : Event) : content (withNow now e) = content e := by
  unfold withNow
  split <;> rfl

theorem rowsOfEvents_eq_map : ∀ (es : List Event), (∀ e ∈ es, marshalData e.data ≠ none) →
    rowsOfEvents es = some (es.map rowOf)
  | [], _ => rfl
  | e :: rest, h => by
    have he : marshalData e.data ≠ none := h e (List.mem_cons_self _ _)
    have hr := rowsOfEvents_eq_map rest (fun x hx => h x (List.mem_cons_of_mem _ hx))
    cases hd : e.data with
    | json s => simp [rowsOfEvents, marshalData, hd, hr, rowOf, serializeOr]
    | unsupported => exact absurd (by simp [marshalData, hd]) he

theorem rowsOfEvents_eq_none : ∀ (es : List Event), (∃ e ∈ es, marshalData e.data = none) →
    rowsOfEvents es = none
  | [], h => by simp at h
  | e :: rest, h => by
    cases hm : marshalData e.data with
    | none => simp [rowsOfEvents, hm]
    | some s =>
      have hrest : ∃ x ∈ rest, marshalData x.data = none := by
        rcases h with ⟨x, hx, hxm⟩
        cases List.mem_cons.mp hx with
        | inl h1 => exact absurd (h1 ▸ hxm) (by simp [h1, hm])
        | inr h2 => exact ⟨x, h2, hxm⟩
      simp [rowsOfEvents, hm, rowsOfEvents_eq_none rest hrest]

theorem rowToEvent_rowOf (e : Event) (h : marshalData e.data ≠ none) :
    rowToEvent (rowOf e) = e := by
  obtain ⟨k, t, d⟩ := e
  cases d with
  | json s => rfl
  | unsupported => exact absurd rfl h

theorem emitAll_eq : ∀ (inputs : List (Nat × Event)) (s : Sys),
    emitAll s inputs = { s with queue := s.queue ++ inputs.map (fun p => withNow p.1 p.2) }
  | [], s => by simp [emitAll]
  | p :: rest, s => by
    rw [emitAll, emitAll_eq rest]
    simp [emit, List.append_assoc]

theorem sortRows_perm (rows : List Row) : (sortRows rows).Perm rows :=
  List.perm_insertionSort tsGE rows

theorem sortRows_sorted (rows : List Row) : List.Sorted tsGE (sortRows rows) :=
  List.sorted_insertionSort tsGE rows

theorem length_sortRows (rows : List Row) : (sortRows rows).length = rows.length :=
  List.length_insertionSort tsGE rows

theorem sqlPage_natCast (L off : Nat) (rows : List Row) :
    sqlPage (L : Int) (off : Int) rows = (rows.drop off).take L := by
  unfold sqlPage
  rw [if_neg (by omega)]
  simp

/-- Splitting a list into consecutive `L`-sized chunks by `drop`/`take` and
concatenating them back reproduces the list, as soon as `n` chunks cover
its length. -/
theorem chunks_join {α : Type} (L : Nat) :
    ∀ (n : Nat) (l : List α), l.length ≤ n * L →
      (List.range n).flatMap (fun k => (l.drop (k * L)).take L) = l := by
  intro n
  induction n with
  | zero =>
    intro l hl
    simp only [Nat.zero_mul, Nat.le_zero] at hl
    simp [List.eq_nil_of_length_eq_zero hl]
  | succ n ih =>
    intro l hl
    rw [Nat.succ_mul] at hl
    rw [List.range_succ_eq_map, List.flatMap_cons, List.flatMap_map]
    have h0 : (l.drop (0 * L)).take L = l.take L := by simp
    have hcongr : ∀ k : Nat, (l.drop (Nat.succ k * L)).take L
        = ((l.drop L).drop (k * L)).take L := by
      intro k
      rw [List.drop_drop, Nat.succ_mul, Nat.add_comm (k * L) L]
    have hrest : (List.range n).flatMap (fun k => (l.drop (Nat.succ k * L)).take L)
        = l.drop L := by
      simp only [hcongr]
      exact ih (l.drop L) (by rw [List.length_drop]; omega)
    rw [h0, hrest, List.take_append_drop]

/-! ## Claim theorems -/

/-- Claim C2: batch-insert atomicity.  If any event in the batch fails to
serialize, `InsertEvents` rolls the transaction back: the table is
unchanged and an error is returned.  The insert commits exactly when every
row inserted without error, in which case precisely the batch's rows are
appended. -/
theorem insertEvents_batch_atomic (db : DBState) (events : List Event) :
    ((∃ e ∈ events, marshalData e.data = none) → insertEvents db events = (db, false)) ∧
    ((insertEvents db events).2 = true ↔ ∀ e ∈ events, marshalData e.data ≠ none) ∧
    ((∀ e ∈ events, marshalData e.data ≠ none) →
      insertEvents db events = (db ++ events.map rowOf, true)) := by
  refine ⟨fun h => ?_, ⟨fun h2 => ?_, fun h3 => ?_⟩, fun h4 => ?_⟩
  · rw [insertEvents, rowsOfEvents_eq_none events h]
  · by_contra hc
    push_neg at hc
    rw [insertEvents, rowsOfEvents_eq_none events hc] at h2
    simp at h2
  · rw [insertEvents, rowsOfEvents_eq_map events h3]
  · rw [insertEvents, rowsOfEvents_eq_map events h4]

/-- Claim C2 witness: a concrete two-event batch whose second event fails
to serialize leaves an empty store empty and returns an error. -/
theorem insertEvents_batch_atomic_witness :
    insertEvents [] [⟨"a", 1, GoData.json "x"⟩, ⟨"b", 2, GoData.unsupported⟩] = ([], false) :=
  (insertEvents_batch_atomic [] _).1 ⟨⟨"b", 2, GoData.unsupported⟩, by decide, rfl⟩

/-- Claim C9: drain idempotence on the empty buffer.  A `flush` of an
empty queue returns immediately, hands nothing to the sink and leaves the
state unchanged; a second `flush` directly after any `flush` (no
intervening emit) is such a no-op, so it performs no sink write and
duplicates no rows. -/
theorem drain_empty_idempotent (s : Sys) :
    (s.queue = [] → flush s = (s, none)) ∧
    flush (flush s).1 = ((flush s).1, none) :=
  ⟨flush_of_queue_nil s, flush_of_queue_nil _ (flush_fst_queue s)⟩

/-- Claim C9 witness: both conjuncts at the initial state, whose queue is
concretely empty. -/
theorem drain_empty_idempotent_witness :
    flush initSys = (initSys, none) ∧
    flush (flush initSys).1 = ((flush initSys).1, none) :=
  ⟨(drain_empty_idempotent initSys).1 rfl, (drain_empty_idempotent initSys).2⟩

/-- Claim C10: a second `Stop` on the same `Logger` or `Client` instance
closes an already-closed channel, a Go runtime panic (modelled as `none`);
the first `Stop` is the only safe one. -/
theorem double_stop_panics (s : Sys) (hs : s.stopped = false)
    (c : Client) (hc : c.stopped = false) :
    (stop s = some (flush { s with stopped := true }).1 ∧
      stop (flush { s with stopped := true }).1 = none) ∧
    (clientStop c = some (clientFlush { c with stopped := true }).1 ∧
      clientStop (clientFlush { c with stopped := true }).1 = none) := by
  refine ⟨⟨?_, ?_⟩, ?_, ?_⟩
  · unfold stop
    rw [if_neg (by rw [hs]; exact Bool.false_ne_true)]
  · unfold stop
    rw [if_pos]
    rw [flush_fst_stopped]
  · unfold clientStop
    rw [if_neg (by rw [hc]; exact Bool.false_ne_true)]
  · unfold clientStop
    rw [if_pos]
    rw [clientFlush_fst_stopped]

/-- Claim C10 witness: concrete fresh logger and client instances — the
first `Stop` succeeds, the second panics. -/
theorem double_stop_panics_witness :
    (stop initSys = some { queue := [], db := [], stopped := true } ∧
      stop { queue := [], db := [], stopped := true } = none) ∧
    (clientStop initClient = some { queue := [], sent := [], stopped := true } ∧
      clientStop { queue := [], sent := [], stopped := true } = none) :=
  double_stop_panics initSys rfl initClient rfl

/-- Claim C7 counterexample: the operation sequence `stop(); emit(e);
flush()` runs without panic and the post-stop `Flush` performs a drain —
it hands the batch `[e]` to the sink and the row becomes durable — so it
is not true that a `flush()` after `stop()` never invokes a drain. -/
theorem post_stop_flush_drains_cex :
    run initSys [.stopOp, .emitOp 1 ⟨"k", 5, GoData.json "d"⟩, .flushOp] =
      some { queue := [], db := [⟨"k", 5, "d"⟩], stopped := true } ∧
    (FlushOp { queue := [⟨"k", 5, GoData.json "d"⟩], db := [], stopped := true }).2 =
      some [⟨"k", 5, GoData.json "d"⟩] := by
  decide

/-- Claim C7 (amended): after the scheduler is `Stopped` no periodic drain
ever fires (the flush worker has exited, so a tick is a no-op), and a
manual `Flush` immediately after `stop()` is a no-op because the final
drain emptied the queue; but `Flush` is not gated on the scheduler state:
called after `stop()` with a non-empty queue (events emitted post-stop),
it still performs a drain. -/
theorem stopped_scheduler_no_auto_drain (s : Sys) :
    (s.stopped = true → tick s = (s, none)) ∧
    (∀ s', stop s = some s' → FlushOp s' = (s', none)) ∧
    (s.stopped = true → s.queue ≠ [] → FlushOp s =
      ({ s with queue := [], db := (insertEvents s.db s.queue).1 }, some s.queue)) := by
  refine ⟨fun h => ?_, fun s' h' => ?_, fun _ hq => ?_⟩
  · unfold tick
    rw [if_pos h]
  · have hstop : ¬ s.stopped = true := by
      intro hcon
      unfold stop at h'
      rw [if_pos hcon] at h'
      exact Option.noConfusion h'
    unfold stop at h'
    rw [if_neg hstop] at h'
    have hs' : s' = (flush { s with stopped := true }).1 := (Option.some.injEq _ _ ▸ h').symm
    rw [hs']
    exact flush_of_queue_nil _ (flush_fst_queue _)
  · unfold FlushOp flush
    rw [if_neg hq]

/-- Claim C7 (amended) witness: concrete instances of all three conjuncts
— a tick on a stopped system with a queued event does nothing, the flush
right after `stop` of a fresh system is a no-op, and a post-stop flush of
a non-empty queue drains it. -/
theorem stopped_scheduler_no_auto_drain_witness :
    tick { queue := [⟨"k", 5, GoData.json "d"⟩], db := [], stopped := true } =
      ({ queue := [⟨"k", 5, GoData.json "d"⟩], db := [], stopped := true }, none) ∧
    FlushOp { queue := [], db := [], stopped := true } =
      ({ queue := [], db := [], stopped := true }, none) ∧
    FlushOp { queue := [⟨"k", 5, GoData.json "d"⟩], db := [], stopped := true } =
      ({ queue := [], db := [⟨"k", 5, "d"⟩], stopped := true },
        some [⟨"k", 5, GoData.json "d"⟩]) := by
  refine ⟨(stopped_scheduler_no_auto_drain _).1 rfl, ?_, ?_⟩
  · exact (stopped_scheduler_no_auto_drain initSys).2.1 _ rfl
  · exact (stopped_scheduler_no_auto_drain
      { queue := [⟨"k", 5, GoData.json "d"⟩], db := [], stopped := true }).2.2 rfl (by decide)

/-- Claim C5 counterexample: on a one-row store, `GetEvents(-1, 0)` — a
limit below 1 — returns the full row set, not an empty page (SQLite
treats a negative LIMIT as "no limit"), and `GetEvents(5, -3)` — an
offset below 1 other than 0 — returns the first page, not an empty page
(SQLite treats a negative OFFSET as 0). -/
theorem getEvents_negative_args_cex :
    ((getEvents [⟨"k", 1, "d"⟩] (-1) 0).1 = [⟨"k", 1, GoData.json "d"⟩] ∧
      ¬ (getEvents [⟨"k", 1, "d"⟩] (-1) 0).1 = []) ∧
    ((getEvents [⟨"k", 1, "d"⟩] 5 (-3)).1 = [⟨"k", 1, GoData.json "d"⟩] ∧
      ¬ (getEvents [⟨"k", 1, "d"⟩] 5 (-3)).1 = []) := by
  decide

/-- Claim C5 (amended): `GetEvents` never errors and `totalCount` is
always the full row count, independent of `limit`/`offset`.  The page
degrades as follows: `limit = 0` or an offset at or beyond the row count
yields an empty page; a negative offset is treated as offset 0; a
negative limit means no limit — the page holds every row from the offset
on. -/
theorem getEvents_arg_degradation (db : DBState) (limit offset : Int) :
    (getEvents db limit offset).2 = (db.length : Int) ∧
    (limit = 0 → (getEvents db limit offset).1 = []) ∧
    ((db.length : Int) ≤ offset → (getEvents db limit offset).1 = []) ∧
    (offset < 0 → getEvents db limit offset = getEvents db limit 0) ∧
    (limit < 0 → (getEvents db limit offset).1 =
      ((sortRows db).drop offset.toNat).map rowToEvent) := by
  refine ⟨rfl, fun h0 => ?_, fun hoff => ?_, fun hneg => ?_, fun hneg2 => ?_⟩
  · subst h0
    unfold getEvents sqlPage
    rw [if_neg (by omega : ¬ (0 : Int) < 0)]
    simp
  · unfold getEvents sqlPage
    have hdrop : (sortRows db).drop offset.toNat = [] :=
      List.drop_eq_nil_of_le (by rw [length_sortRows]; omega)
    rw [hdrop]
    split <;> simp
  · unfold getEvents sqlPage
    have h0 : offset.toNat = (0 : Int).toNat := by omega
    rw [h0]
  · unfold getEvents sqlPage
    rw [if_pos hneg2]

/-- Claim C5 (amended) witness: all five conjuncts at concrete stores and
page arguments. -/
theorem getEvents_arg_degradation_witness :
    (getEvents [⟨"k", 1, "d"⟩] (-2) 4).2 = 1 ∧
    (getEvents [⟨"k", 1, "d"⟩] 0 0).1 = [] ∧
    (getEvents [⟨"k", 1, "d"⟩] 5 7).1 = [] ∧
    getEvents [⟨"k", 1, "d"⟩] 5 (-3) = getEvents [⟨"k", 1, "d"⟩] 5 0 ∧
    (getEvents [⟨"k", 1, "d"⟩] (-1) 2).1 =
      ((sortRows [⟨"k", 1, "d"⟩]).drop (2 : Int).toNat).map rowToEvent := by
  refine ⟨(getEvents_arg_degradation [⟨"k", 1, "d"⟩] (-2) 4).1, ?_, ?_, ?_, ?_⟩
  · exact (getEvents_arg_degradation [⟨"k", 1, "d"⟩] 0 0).2.1 rfl
  · exact (getEvents_arg_degradation [⟨"k", 1, "d"⟩] 5 7).2.2.1 (by decide)
  · exact (getEvents_arg_degradation [⟨"k", 1, "d"⟩] 5 (-3)).2.2.2.1 (by decide)
  · exact (getEvents_arg_degradation [⟨"k", 1, "d"⟩] (-1) 2).2.2.2.2 (by decide)

/-- Claim C3: retrieval ordering.  Every page `GetEvents` returns is
ordered by timestamp descending (pairwise newest-first); and concretely,
after emitting events indexed 0..4 at strictly increasing timestamps and
draining, `GetEvents(2, 0)` returns the events with index 4 then 3, and
`GetEvents(2, 4)` returns exactly the single oldest event, index 0. -/
theorem getEvents_ordering :
    (∀ (db : DBState) (limit offset : Int),
      List.Pairwise (fun a b : Event => b.timestamp ≤ a.timestamp)
        (getEvents db limit offset).1) ∧
    ((getEvents (flush (emitAll initSys ((List.range 5).map (fun i =>
        (0, ⟨"paginate_test", i + 1, GoData.json (toString i)⟩))))).1.db 2 0).1 =
      [⟨"paginate_test", 5, GoData.json "4"⟩, ⟨"paginate_test", 4, GoData.json "3"⟩]) ∧
    ((getEvents (flush (emitAll initSys ((List.range 5).map (fun i =>
        (0, ⟨"paginate_test", i + 1, GoData.json (toString i)⟩))))).1.db 2 4).1 =
      [⟨"paginate_test", 1, GoData.json "0"⟩]) := by
  refine ⟨fun db limit offset => ?_, by decide, by decide⟩
  unfold getEvents
  rw [List.pairwise_map]
  have hs : List.Pairwise tsGE (sortRows db) := sortRows_sorted db
  have hsub : List.Sublist (sqlPage limit offset (sortRows db)) (sortRows db) := by
    unfold sqlPage
    split
    · exact List.drop_sublist _ _
    · exact (List.take_sublist _ _).trans (List.drop_sublist _ _)
  exact List.Pairwise.sublist hsub hs

/-- Claim C6: shutdown completeness.  `Stop` on a running logger blocks
through the final drain: the state it returns has every event that was
in the buffer at the stop call persisted as a row of the store — in
order, appended after the rows already durable — and the buffer empty
(barring sink failure, excluded here by the serializability of each
queued event's data). -/
theorem shutdown_completeness (s : Sys) (hrun : s.stopped = false)
    (hser : ∀ e ∈ s.queue, marshalData e.data ≠ none) :
    stop s = some { queue := [], db := s.db ++ s.queue.map rowOf, stopped := true } := by
  unfold stop
  rw [if_neg (by rw [hrun]; exact Bool.false_ne_true)]
  congr 1
  by_cases hq : s.queue = []
  · rw [flush_of_queue_nil { s with stopped := true } hq]
    simp [hq]
  · unfold flush
    rw [if_neg hq]
    simp only [insertEvents, rowsOfEvents_eq_map s.queue hser]

/-- Claim C6 witness: stopping a running logger with one concrete queued
event persists that event before `Stop` returns. -/
theorem shutdown_completeness_witness :
    stop { queue := [⟨"k", 3, GoData.json "d"⟩], db := [⟨"old", 1, "o"⟩], stopped := false } =
      some { queue := [], db := [⟨"old", 1, "o"⟩, ⟨"k", 3, "d"⟩], stopped := true } := by
  exact shutdown_completeness _ rfl (by decide)

/-- Claim C1: durability after flush.  Starting from an empty store, emit
any sequence of N (well-formed, i.e. JSON-serializable) events and drain
once — the periodic tick and a manual flush perform the same drain — and
`GetEvents` with any limit covering N reports `totalCount = N` and
returns exactly those N events, content-equal on key and data. -/
theorem durability_after_flush (inputs : List (Nat × Event))
    (hser : ∀ p ∈ inputs, marshalData p.2.data ≠ none)
    (limit : Int) (hlim : (inputs.length : Int) ≤ limit) :
    tick (emitAll initSys inputs) = flush (emitAll initSys inputs) ∧
    (getEvents (flush (emitAll initSys inputs)).1.db limit 0).2 = (inputs.length : Int) ∧
    List.Perm
      (((getEvents (flush (emitAll initSys inputs)).1.db limit 0).1).map content)
      (inputs.map (fun p => content p.2)) := by
  have hemit : emitAll initSys inputs =
      { queue := inputs.map (fun p => withNow p.1 p.2), db := [], stopped := false } := by
    rw [emitAll_eq]
    rfl
  set q := inputs.map (fun p => withNow p.1 p.2) with hq
  have hqser : ∀ e ∈ q, marshalData e.data ≠ none := by
    intro e he
    rw [hq] at he
    obtain ⟨p, hp, rfl⟩ := List.mem_map.mp he
    rw [withNow_data]
    exact hser p hp
  have hdb : (flush (emitAll initSys inputs)).1.db = q.map rowOf := by
    rw [hemit]
    by_cases hqe : q = []
    · rw [flush_of_queue_nil _ hqe]
      simp [hqe]
    · unfold flush
      rw [if_neg hqe]
      simp only [insertEvents, rowsOfEvents_eq_map q hqser, List.nil_append]
  have hlen : (flush (emitAll initSys inputs)).1.db.length = inputs.length := by
    rw [hdb, List.length_map, hq, List.length_map]
  have hnneg : ¬ limit < 0 := by omega
  have hpage : (getEvents (flush (emitAll initSys inputs)).1.db limit 0).1 =
      (sortRows (q.map rowOf)).map rowToEvent := by
    rw [hdb]
    unfold getEvents sqlPage
    rw [if_neg hnneg, Int.toNat_zero, List.drop_zero,
      List.take_of_length_le (by rw [length_sortRows, List.length_map, hq, List.length_map]; omega)]
  refine ⟨?_, ?_, ?_⟩
  · rw [hemit]
    rfl
  · show ((flush (emitAll initSys inputs)).1.db.length : Int) = (inputs.length : Int)
    rw [hlen]
  · rw [hpage, List.map_map]
    have h2 : List.Perm ((sortRows (q.map rowOf)).map (content ∘ rowToEvent))
        ((q.map rowOf).map (content ∘ rowToEvent)) := List.Perm.map _ (sortRows_perm _)
    have h3 : (q.map rowOf).map (content ∘ rowToEvent) = inputs.map (fun p => content p.2) := by
      rw [List.map_map]
      have h4 : q.map ((content ∘ rowToEvent) ∘ rowOf) = q.map content :=
        List.map_congr_left (fun e he => by
          show content (rowToEvent (rowOf e)) = content e
          rw [rowToEvent_rowOf e (hqser e he)])
      rw [h4, hq, List.map_map]
      exact List.map_congr_left (fun p _ => content_withNow p.1 p.2)
    exact h3 ▸ h2

/-- Claim C1 witness: one concretely emitted event, drained, read back
with limit 5. -/
theorem durability_after_flush_witness :
    tick (emitAll initSys [(9, ⟨"k", 0, GoData.json "d"⟩)]) =
      flush (emitAll initSys [(9, ⟨"k", 0, GoData.json "d"⟩)]) ∧
    (getEvents (flush (emitAll initSys [(9, ⟨"k", 0, GoData.json "d"⟩)])).1.db 5 0).2 = 1 ∧
    List.Perm
      (((getEvents (flush (emitAll initSys [(9, ⟨"k", 0, GoData.json "d"⟩)])).1.db 5 0).1).map
        content)
      ([(9, ⟨"k", 0, GoData.json "d"⟩)].map (fun p => content p.2)) := by
  exact durability_after_flush [(9, ⟨"k", 0, GoData.json "d"⟩)] (by decide) 5 (by decide)

/-- Arithmetic fact behind pagination completeness: `⌈T/L⌉` pages of size
`L` cover `T` rows. -/
theorem length_le_numPages_mul (T L : Nat) (hL : 1 ≤ L) : T ≤ ((T + L - 1) / L) * L := by
  have h := Nat.div_add_mod (T + L - 1) L
  have hm : (T + L - 1) % L < L := Nat.mod_lt _ (by omega)
  have h2 : T ≤ L * ((T + L - 1) / L) := by omega
  rw [Nat.mul_comm] at h2
  exact h2

/-- Claim C4: pagination completeness.  For every store state and every
limit `L ≥ 1`, concatenating the pages `GetEvents(L, 0), GetEvents(L, L),
…, GetEvents(L, (⌈T/L⌉-1)·L)` reproduces every stored event exactly once
(a permutation of the store — no duplicate, no omission), and when the
store is non-empty the final page has size `T mod L`, or `L` when `L`
divides `T`. -/
theorem pagination_completeness (db : DBState) (L : Nat) (hL : 1 ≤ L) :
    List.Perm
      ((List.range ((db.length + L - 1) / L)).flatMap
        (fun k => (getEvents db (L : Int) ((k * L : Nat) : Int)).1))
      (db.map rowToEvent) ∧
    (db ≠ [] →
      ((getEvents db (L : Int) ((((db.length + L - 1) / L - 1) * L : Nat) : Int)).1).length =
        if db.length % L = 0 then L else db.length % L) := by
  have hpage : ∀ off : Nat, (getEvents db (L : Int) ((off : Nat) : Int)).1 =
      (((sortRows db).drop off).take L).map rowToEvent := by
    intro off
    unfold getEvents
    rw [sqlPage_natCast]
  constructor
  · have hjoin : (List.range ((db.length + L - 1) / L)).flatMap
        (fun k => ((sortRows db).drop (k * L)).take L) = sortRows db := by
      apply chunks_join
      rw [length_sortRows]
      exact length_le_numPages_mul db.length L hL
    have hstep : (List.range ((db.length + L - 1) / L)).flatMap
        (fun k => (getEvents db (L : Int) ((k * L : Nat) : Int)).1)
        = (sortRows db).map rowToEvent := by
      simp only [hpage]
      rw [← List.map_flatMap, hjoin]
    rw [hstep]
    exact List.Perm.map _ (sortRows_perm db)
  · intro hne
    rw [hpage, List.length_map, List.length_take, List.length_drop, length_sortRows]
    have hT : 1 ≤ db.length := List.length_pos.mpr hne
    set T := db.length with hTdef
    have hq := Nat.div_add_mod (T - 1) L
    have hr : (T - 1) % L < L := Nat.mod_lt _ (by omega)
    have hn : (T + L - 1) / L = (T - 1) / L + 1 := by
      have he : T + L - 1 = (T - 1) + L := by omega
      rw [he, Nat.add_div_right _ (by omega)]
    rw [hn]
    simp only [Nat.add_sub_cancel]
    set q := (T - 1) / L with hqdef
    set r := (T - 1) % L with hrdef
    have hql : q * L = L * q := Nat.mul_comm q L
    have hsub : T - q * L = r + 1 := by rw [hql]; omega
    rw [hsub]
    have hmin : min L (r + 1) = r + 1 := Nat.min_eq_right (by omega)
    rw [hmin]
    rcases Nat.lt_or_ge (r + 1) L with hlt | hge
    · have hTeq : T = L * q + (r + 1) := by omega
      have hmod : T % L = r + 1 := by
        rw [hTeq, Nat.mul_add_mod, Nat.mod_eq_of_lt hlt]
      rw [hmod, if_neg (by omega)]
    · have hrl : r + 1 = L := by omega
      have hTeq : T = (q + 1) * L := by
        rw [Nat.succ_mul, hql]
        omega
      have hmod : T % L = 0 := by rw [hTeq, Nat.mul_mod_left]
      rw [hmod, if_pos rfl, hrl]

/-- Claim C4 witness: a concrete five-row store read in pages of two —
three pages reproduce the store, the last page holding one event. -/
theorem pagination_completeness_witness :
    List.Perm
      ((List.range 3).flatMap (fun k =>
        (getEvents [⟨"a", 1, "1"⟩, ⟨"b", 2, "2"⟩, ⟨"c", 3, "3"⟩, ⟨"d", 4, "4"⟩, ⟨"e", 5, "5"⟩]
          (2 : Int) ((k * 2 : Nat) : Int)).1))
      ([⟨"a", 1, "1"⟩, ⟨"b", 2, "2"⟩, ⟨"c", 3, "3"⟩, ⟨"d", 4, "4"⟩,
        ⟨"e", 5, "5"⟩].map rowToEvent) ∧
    ((getEvents [⟨"a", 1, "1"⟩, ⟨"b", 2, "2"⟩, ⟨"c", 3, "3"⟩, ⟨"d", 4, "4"⟩, ⟨"e", 5, "5"⟩]
        (2 : Int) ((4 : Nat) : Int)).1).length = 1 := by
  exact ⟨(pagination_completeness _ 2 (by decide)).1,
    (pagination_completeness _ 2 (by decide)).2 (by decide)⟩

end Tlytics
